import Mathlib

set_option linter.unusedVariables false

deriving instance DecidableEq for Except

/-!
Shallow embedding of the value-formatting engine of the cbt CLI
(file cbtdoc.go of the repository) together with theorems checking the
natural-language specification against it.

Modelling conventions:
* Go strings are modelled as `List Char` (`GoStr`); byte slices as
  `List Nat` (each element denoting one byte, `< 256`).
* Go maps are modelled as association lists in insertion order; map
  iteration is modelled as iteration in list order.  (Go's map iteration
  order is unspecified; all lookups are order-independent, only the
  order of the lines of the combined validation report depends on it.)
* `strings.ToLower` is modelled with ASCII case folding (`Char.toLower`),
  which agrees with Go on all inputs appearing in configurations here.
* Fallible Go functions returning `(T, error)` become `Except GoStr T`.
-/

namespace Cbt

/-- Go strings, modelled as lists of characters. -/
abbrev GoStr := List Char

/-- Shorthand turning a Lean string literal into a `GoStr`. -/
def gs (s : String) : GoStr := s.data

/-- `strings.ToLower`, restricted to ASCII case folding. -/
def goToLower (s : GoStr) : GoStr := s.map Char.toLower

/-- Decimal rendering of a natural number (Go `%d` / `fmt.Sprint`). -/
def natToGoStr (n : Nat) : GoStr := (toString n).data

/-- Decimal rendering of an integer (Go `%d` / `fmt.Sprint`). -/
def intToGoStr (i : Int) : GoStr := (toString i).data

/-- Lookup in a Go map modelled as an association list (first match;
the lists modelling maps carry each key at most once). -/
def lookupGoMap {κ α : Type} [DecidableEq κ] : List (κ × α) → κ → Option α
  | [], _ => Option.none
  | (k, v) :: rest, key => if k = key then Option.some v else lookupGoMap rest key

/-- `strings.Join(elems, sep)`. -/
def goJoin (sep : GoStr) : List GoStr → GoStr
  | [] => []
  | [x] => x
  | x :: xs => x ++ sep ++ goJoin sep xs

/-- The `validEncodings` enumeration of cbtdoc.go (the `none` constructor
is the internal "no encoding" value). -/
inductive validEncodings where
  | none
  | bigEndian
  | littleEndian
  | protocolBuffer
  | hex
  | jsonEncoded
deriving DecidableEq, Repr

/-- `binary.ByteOrder`: the two byte orders used by the binary decoders. -/
inductive GoByteOrder where
  | big
  | little
deriving DecidableEq, Repr

/-- The `validValueFormattingEncodings` map of cbtdoc.go.  Note that the
`littleEndian` single-letter alias is spelled with a capital `L` in the
source map. -/
def validValueFormattingEncodings : List (GoStr × validEncodings) :=
  [ (gs "bigendian", .bigEndian)
  , (gs "b", .bigEndian)
  , (gs "binary", .bigEndian)
  , (gs "hex", .hex)
  , (gs "h", .hex)
  , (gs "j", .jsonEncoded)
  , (gs "json", .jsonEncoded)
  , (gs "littleendian", .littleEndian)
  , (gs "L", .littleEndian)
  , (gs "protocolbuffer", .protocolBuffer)
  , (gs "protocol-buffer", .protocolBuffer)
  , (gs "protocol_buffer", .protocolBuffer)
  , (gs "proto", .protocolBuffer)
  , (gs "p", .protocolBuffer)
  , (gs "", .none)
  ]

/-! ### Binary decoding (`binaryFormatterHelper`, `binaryValueFormatters`) -/

/-- Split a byte slice into consecutive chunks of `k` bytes (`k > 0`),
with a structural fuel argument (one unit per chunk suffices). -/
def chunksOfFuel (fuel : Nat) (k : Nat) : List Nat → List (List Nat)
  | [] => []
  | b :: rest =>
    match fuel with
    | 0 => []
    | Nat.succ fuel =>
      if k = 0 then []
      else (b :: rest).take k :: chunksOfFuel fuel k ((b :: rest).drop k)

/-- Split a byte slice into consecutive chunks of `k` bytes (`k > 0`). -/
def chunksOf (k : Nat) (l : List Nat) : List (List Nat) :=
  chunksOfFuel l.length k l

/-- The exactly `l.length / k` full chunks that `binary.Read` consumes when
filling a slice of `l.length / k` elements of width `k`. -/
def exactChunks (k : Nat) (l : List Nat) : List (List Nat) :=
  chunksOf k (l.take (k * (l.length / k)))

/-- Big-endian value of a chunk of bytes. -/
def beWordVal (chunk : List Nat) : Nat :=
  chunk.foldl (fun acc b => acc * 256 + b) 0

/-- Value of a chunk of bytes under a byte order (`binary.ByteOrder`). -/
def wordVal (order : GoByteOrder) (chunk : List Nat) : Nat :=
  match order with
  | .big => beWordVal chunk
  | .little => beWordVal chunk.reverse

/-- Two's-complement reading of a `w`-byte unsigned value. -/
def toSigned (w : Nat) (val : Nat) : Int :=
  if val < 2 ^ (8 * w - 1) then (val : Int) else (val : Int) - 2 ^ (8 * w)

/-- Decoded+rendered elements of a slice of `w`-byte signed integers, as
`binary.Read` fills `[]intN` and `fmt` renders each element. -/
def decodeSigned (w : Nat) (input : List Nat) (order : GoByteOrder) : List GoStr :=
  (exactChunks w input).map (fun ch => intToGoStr (toSigned w (wordVal order ch)))

/-- Decoded+rendered elements of a slice of `w`-byte unsigned integers. -/
def decodeUnsigned (w : Nat) (input : List Nat) (order : GoByteOrder) : List GoStr :=
  (exactChunks w input).map (fun ch => natToGoStr (wordVal order ch))

/-- `fmt.Sprint` of a pointer to a slice whose elements render as `elems`,
with the leading `&` already stripped (`fmt.Sprint(v)[1:]` in the source):
`"[e1 e2 ... en]"`. -/
def sprintSlice (elems : List GoStr) : GoStr :=
  gs "[" ++ goJoin (gs " ") elems ++ gs "]"

/-- `binaryFormatterHelper` of cbtdoc.go.  `elems` stands for the slice
already filled by `binary.Read` (which always succeeds here because the
callers allocate exactly as many elements as fit in `input`); the helper
itself only checks divisibility by `elemsize` and post-processes the
`fmt.Sprint` rendering (stripping the brackets when `len(in) == elemsize`). -/
def binaryFormatterHelper (input : List Nat) (elemsize : Nat) (elems : List GoStr) :
    Except GoStr GoStr :=
  if input.length % elemsize ≠ 0 then
    .error (gs "data size, " ++ natToGoStr input.length ++
      gs ", isn\x27t a multiple of element size, " ++ natToGoStr elemsize)
  else
    let s := sprintSlice elems
    .ok (if input.length = elemsize then (s.drop 1).dropLast else s)

/-! Rendering of floating-point elements.  Go prints floats with the
shortest round-trip decimal (`%v`); this model renders the sign and the
exact decimal value of the IEEE-754 number instead (and `NaN`, `+Inf`,
`-Inf` faithfully).  No claim in this development depends on the decimal
text produced for a finite float. -/

/-- Exact decimal rendering of the dyadic rational `M * 2^E` (unsigned part). -/
def dyadicDecimal (M : Nat) (E : Int) : GoStr :=
  if 0 ≤ E then
    natToGoStr (M * 2 ^ E.toNat)
  else
    let k := (-E).toNat
    let ip := M / 2 ^ k
    let fracDigits := (Nat.toDigits 10 (M % 2 ^ k * 5 ^ k))
    let padded := List.replicate (k - fracDigits.length) '0' ++ fracDigits
    let trimmed := (padded.reverse.dropWhile (· = '0')).reverse
    natToGoStr ip ++ (if trimmed = [] then [] else gs "." ++ trimmed)

/-- Rendering of one IEEE-754 element of `nbytes` bytes given its bit
pattern (`eb` exponent bits, `fb` fraction bits, `bias`). -/
def floatRenderBits (eb fb bias : Nat) (bits : Nat) : GoStr :=
  let sign := bits / 2 ^ (eb + fb) % 2 = 1
  let expo := bits / 2 ^ fb % 2 ^ eb
  let frac := bits % 2 ^ fb
  if expo = 2 ^ eb - 1 then
    if frac ≠ 0 then gs "NaN" else if sign then gs "-Inf" else gs "+Inf"
  else
    let M : Nat := if expo = 0 then frac else 2 ^ fb + frac
    let E : Int := if expo = 0 then (1 : Int) - bias - fb else (expo : Int) - bias - fb
    (if sign then gs "-" else []) ++ dyadicDecimal M E

/-- Decoded+rendered elements of a slice of `w`-byte floats. -/
def decodeFloat (w eb fb bias : Nat) (input : List Nat) (order : GoByteOrder) : List GoStr :=
  (exactChunks w input).map (fun ch => floatRenderBits eb fb bias (wordVal order ch))

/-- The type of the entries of `binaryValueFormatters`. -/
abbrev binaryValueFormatter := List Nat → GoByteOrder → Except GoStr GoStr

/-- The `binaryValueFormatters` map of cbtdoc.go.  Each entry allocates the
element slice exactly as the source does (`int8`/`uint8` allocate one
element per input byte) and passes the same `elemsize` constant to the
helper — in particular `int8`/`uint8` pass element size `2`. -/
def binaryValueFormatters : List (GoStr × binaryValueFormatter) :=
  [ (gs "int8", fun input order => binaryFormatterHelper input 2 (decodeSigned 1 input order))
  , (gs "int16", fun input order => binaryFormatterHelper input 2 (decodeSigned 2 input order))
  , (gs "int32", fun input order => binaryFormatterHelper input 4 (decodeSigned 4 input order))
  , (gs "int64", fun input order => binaryFormatterHelper input 8 (decodeSigned 8 input order))
  , (gs "uint8", fun input order => binaryFormatterHelper input 2 (decodeUnsigned 1 input order))
  , (gs "uint16", fun input order => binaryFormatterHelper input 2 (decodeUnsigned 2 input order))
  , (gs "uint32", fun input order => binaryFormatterHelper input 4 (decodeUnsigned 4 input order))
  , (gs "uint64", fun input order => binaryFormatterHelper input 8 (decodeUnsigned 8 input order))
  , (gs "float32", fun input order => binaryFormatterHelper input 4 (decodeFloat 4 8 23 127 input order))
  , (gs "float64", fun input order => binaryFormatterHelper input 8 (decodeFloat 8 11 52 1023 input order))
  ]

/-! ### Configuration data model (`valueFormatSettings` and friends) -/

/-- `valueFormatColumn` of cbtdoc.go.  The Go field `Type` is called `Typ`
here because `Type` is reserved in Lean. -/
structure valueFormatColumn where
  Encoding : GoStr
  Typ : GoStr
deriving DecidableEq, Repr

/-- `valueFormatFamily` of cbtdoc.go (the `Columns` map in insertion order). -/
structure valueFormatFamily where
  DefaultEncoding : GoStr
  DefaultType : GoStr
  Columns : List (GoStr × valueFormatColumn)
deriving DecidableEq, Repr

/-- `valueFormatSettings` of cbtdoc.go. -/
structure valueFormatSettings where
  ProtocolBufferDefinitions : List GoStr
  ProtocolBufferPaths : List GoStr
  DefaultEncoding : GoStr
  DefaultType : GoStr
  Columns : List (GoStr × valueFormatColumn)
  Families : List (GoStr × valueFormatFamily)
deriving DecidableEq, Repr

/-- A parsed protocol-buffer message descriptor.  The descriptor machinery
(`protoreflect`, `dynamicpb`, `prototext`) is external library code; what
`pbFormatter` builds from a descriptor is a closure from raw bytes to
rendered text (or a decode error), which is all the formatting engine ever
uses, so the descriptor is modelled as exactly that closure. -/
structure pbMessageDescriptor where
  render : List Nat → Except GoStr GoStr

/-- `valueFormatter`: a decoding function from raw bytes to text or error. -/
abbrev valueFormatter := List Nat → Except GoStr GoStr

/-- `valueFormatting` of cbtdoc.go: settings, protobuf registry and the
per-(family, column) formatter cache. -/
structure valueFormatting where
  settings : valueFormatSettings
  pbMessageTypes : List (GoStr × pbMessageDescriptor)
  formatters : List ((GoStr × GoStr) × valueFormatter)

/-- `newValueFormatting`. -/
def newValueFormatting : valueFormatting :=
  { settings :=
      { ProtocolBufferDefinitions := []
      , ProtocolBufferPaths := []
      , DefaultEncoding := []
      , DefaultType := []
      , Columns := []
      , Families := [] }
  , pbMessageTypes := []
  , formatters := [] }

/-! ### Validation (`validateEncoding`, `validateType`, `validateFormat`) -/

/-- `validateEncoding` of cbtdoc.go: case-insensitive lookup in
`validValueFormattingEncodings`. -/
def validateEncoding (f : valueFormatting) (encoding : GoStr) :
    Except GoStr validEncodings :=
  match lookupGoMap validValueFormattingEncodings (goToLower encoding) with
  | Option.some v => .ok v
  | Option.none => .error (gs "invalid encoding: " ++ encoding)

/-- `validateType` of cbtdoc.go. -/
def validateType (f : valueFormatting) (cname : GoStr)
    (validEncoding : validEncodings) (encoding ctype : GoStr) :
    Except GoStr GoStr :=
  match validEncoding with
  | .littleEndian | .bigEndian =>
    if ctype = [] then
      .error (gs "no type specified for encoding: " ++ encoding)
    else
      match lookupGoMap binaryValueFormatters (goToLower ctype) with
      | Option.some _ => .ok (goToLower ctype)
      | Option.none =>
        .error (gs "invalid type: " ++ ctype ++ gs " for encoding: " ++ encoding)
  | .protocolBuffer =>
    let ctype := if ctype = [] then cname else ctype
    match lookupGoMap f.pbMessageTypes (goToLower ctype) with
    | Option.some _ => .ok ctype
    | Option.none =>
      .error (gs "invalid type: " ++ ctype ++ gs " for encoding: " ++ encoding)
  | _ => .ok ctype

/-- `validateFormat` of cbtdoc.go. -/
def validateFormat (f : valueFormatting) (cname encoding ctype : GoStr) :
    Except GoStr (validEncodings × GoStr) :=
  match validateEncoding f encoding with
  | .error err => .error err
  | .ok validEncoding =>
    match validateType f cname validEncoding encoding ctype with
    | .error err => .error err
    | .ok ctype => .ok (validEncoding, ctype)

/-- `override` of cbtdoc.go: return `new` if non-empty, else `old`. -/
def override (f : valueFormatting) (old new : GoStr) : GoStr :=
  if new ≠ [] then new else old

/-- The lines accumulated for the top-level `settings.Columns` map by
`validateColumns`, in map (insertion) order. -/
def validateColumnsTopErrs (f : valueFormatting) : List GoStr :=
  f.settings.Columns.filterMap (fun p =>
    match validateFormat f p.1
        (override f f.settings.DefaultEncoding p.2.Encoding)
        (override f f.settings.DefaultType p.2.Typ) with
    | .error err => Option.some (p.1 ++ gs ": " ++ err)
    | .ok _ => Option.none)

/-- The lines accumulated for the `settings.Families` maps by
`validateColumns`, in map (insertion) order. -/
def validateColumnsFamErrs (f : valueFormatting) : List GoStr :=
  f.settings.Families.flatMap (fun q =>
    q.2.Columns.filterMap (fun p =>
      match validateFormat f p.1
          (override f (override f f.settings.DefaultEncoding q.2.DefaultEncoding) p.2.Encoding)
          (override f (override f f.settings.DefaultType q.2.DefaultType) p.2.Typ) with
      | .error err => Option.some (q.1 ++ gs ":" ++ p.1 ++ gs ": " ++ err)
      | .ok _ => Option.none))

/-- `validateColumns` of cbtdoc.go: `Option.none` models a `nil` error. -/
def validateColumns (f : valueFormatting) : Option GoStr :=
  let errs := validateColumnsTopErrs f ++ validateColumnsFamErrs f
  if errs = [] then Option.none
  else Option.some (gs "bad encoding and types:\n" ++ goJoin (gs "\n") errs)

/-- `colEncodingType` of cbtdoc.go. -/
def colEncodingType (f : valueFormatting) (family column : GoStr) :
    GoStr × GoStr :=
  let defaultEncoding := f.settings.DefaultEncoding
  let defaultType := f.settings.DefaultType
  match lookupGoMap f.settings.Families family with
  | Option.some fam =>
    let familyEncoding := override f defaultEncoding fam.DefaultEncoding
    let familyType := override f defaultType fam.DefaultType
    (match lookupGoMap fam.Columns column with
     | Option.some col =>
       (override f familyEncoding col.Encoding, override f familyType col.Typ)
     | Option.none => (familyEncoding, familyType))
  | Option.none =>
    match lookupGoMap f.settings.Columns column with
    | Option.some col =>
      (override f defaultEncoding col.Encoding, override f defaultType col.Typ)
    | Option.none => (defaultEncoding, defaultType)

/-! ### The individual formatters -/

/-- `badFormatter` of cbtdoc.go: always returns the stored error. -/
def badFormatter (f : valueFormatting) (err : GoStr) : valueFormatter :=
  fun _ => .error err

/-- A single hex digit. -/
def hexDigit (n : Nat) : Char :=
  if n < 10 then Char.ofNat ('0'.toNat + n) else Char.ofNat ('a'.toNat + n - 10)

/-- Two lowercase hex digits for one byte (`%x` of a byte). -/
def byteHex (b : Nat) : GoStr := [hexDigit (b / 16 % 16), hexDigit (b % 16)]

/-- `hexFormatter` of cbtdoc.go (`fmt.Sprintf("% x", in)`). -/
def hexFormatter (f : valueFormatting) (input : List Nat) : Except GoStr GoStr :=
  .ok (goJoin (gs " ") (input.map byteHex))

/-- One character of a Go `%q` quoted string.  Bytes outside printable
ASCII are escaped `\xHH`; Go additionally prints printable multi-byte
UTF-8 runes literally, which this byte-level model does not decode. -/
def quoteChar (c : Char) : GoStr :=
  if c = '"' then gs "\\\""
  else if c = '\\' then gs "\\\\"
  else if c = Char.ofNat 7 then gs "\\a"
  else if c = Char.ofNat 8 then gs "\\b"
  else if c = Char.ofNat 12 then gs "\\f"
  else if c = '\n' then gs "\\n"
  else if c = Char.ofNat 13 then gs "\\r"
  else if c = '\t' then gs "\\t"
  else if c = Char.ofNat 11 then gs "\\v"
  else if 0x20 ≤ c.toNat ∧ c.toNat ≤ 0x7e then [c]
  else gs "\\x" ++ byteHex c.toNat

/-- Go `%q` quoting of a string. -/
def goQuote (s : GoStr) : GoStr :=
  gs "\"" ++ (s.map quoteChar).flatten ++ gs "\""

/-- `defaultFormatter` of cbtdoc.go (`fmt.Sprintf("%q", in)`). -/
def defaultFormatter (f : valueFormatting) (input : List Nat) :
    Except GoStr GoStr :=
  .ok (goQuote (input.map Char.ofNat))

/-- `binaryFormatter` of cbtdoc.go.  The source indexes
`binaryValueFormatters[ctype]` without checking; a missing entry would
make the returned closure call a nil function and panic, modelled here by
the error branch (shown unreachable after validation in the C10 theorem). -/
def binaryFormatter (f : valueFormatting) (encoding : validEncodings)
    (ctype : GoStr) : valueFormatter :=
  let typeFormatter := lookupGoMap binaryValueFormatters ctype
  let byteOrder : GoByteOrder :=
    if encoding = .bigEndian then .big else .little
  fun input =>
    match typeFormatter with
    | Option.some g => g input byteOrder
    | Option.none => .error (gs "go panic: call of nil function")

/-- `pbFormatter` of cbtdoc.go (the error message, including the "time"
typo, is the source's). -/
def pbFormatter (f : valueFormatting) (ctype : GoStr) :
    Except GoStr valueFormatter :=
  match lookupGoMap f.pbMessageTypes (goToLower ctype) with
  | Option.none => .error (gs "no Protocol-Buffer message time for: " ++ ctype)
  | Option.some md => .ok md.render

/-! ### JSON pretty-printing (`jsonFormatter`)

`encoding/json.Unmarshal` into `interface{}` produces strings, `float64`
numbers (never `int`: the `case int` arm of the source's `fmat` is
unreachable), booleans, `nil`, `[]interface{}` and
`map[string]interface{}`.  The decoded tree is modelled by `GoJSON`, with
a number kept as the exact decimal value `mant * 10 ^ exp10` of its
literal; Go stores the nearest `float64`, which coincides on every
literal exactly representable in a `float64`, in particular on all
integers used here. -/

/-- The generic decoded JSON tree. -/
inductive GoJSON where
  | str (s : GoStr)
  | num (mant : Int) (exp10 : Int)
  | bool (b : Bool)
  | null
  | arr (elems : List GoJSON)
  | obj (fields : List (GoStr × GoJSON))
deriving Repr

/-- Lexicographic string comparison (`sort.Strings` order; Go compares
UTF-8 bytes, which on the ASCII inputs here equals code-point order),
as a Boolean relation for sorting. -/
def strLeb : GoStr → GoStr → Bool
  | [], _ => true
  | _ :: _, [] => false
  | a :: s, b :: t => if a = b then strLeb s t else decide (a.toNat < b.toNat)

/-- Go `%.2f` style fixed rendering of a nonnegative integer number of
hundredths: `"d.dd"`. -/
def hundredthsToGoStr (n : Nat) : GoStr :=
  natToGoStr (n / 100) ++ gs "." ++
  (if n % 100 < 10 then gs "0" else []) ++ natToGoStr (n % 100)

/-- Round the nonnegative value `a * 10 ^ e2` to the nearest natural
number, ties to even (`strconv` rounds the binary value to nearest; an
exact tie cannot arise from a binary `float64`, so the tie rule is
immaterial for values Go can hold). -/
def decimalRound (a : Nat) (e2 : Int) : Nat :=
  if 0 ≤ e2 then a * 10 ^ e2.toNat
  else
    let k := 10 ^ (-e2).toNat
    let base := a / k
    let rem := a % k
    if 2 * rem > k then base + 1
    else if 2 * rem < k then base
    else if base % 2 = 0 then base else base + 1

/-- Go `%6.2f` of the value `mant * 10 ^ exp10`: two-decimal fixed form,
right-aligned to width 6. -/
def fmt62f (mant exp10 : Int) : GoStr :=
  let neg := mant < 0
  let n := decimalRound mant.natAbs (exp10 + 2)
  let s := (if neg then gs "-" else []) ++ hundredthsToGoStr n
  List.replicate (6 - s.length) ' ' ++ s

/-- Right-align a string to width 6 (the padding of `%6q`). -/
def pad6 (s : GoStr) : GoStr := List.replicate (6 - s.length) ' ' ++ s

/-- The recursive `fmat` closure inside `jsonFormatter` of cbtdoc.go.
The source's `map` arm collects the map's keys, sorts them with
`sort.Strings` and renders `t[k]` for each; since the decoded map holds
each key once, this equals rendering the fields and sorting the rendered
fields by key, which is how it is written here so the recursion is
structural (with a fuel argument; `jsonFmat` below supplies enough).
The `string`/`float64` arms pad with `%6q` / `%6.2f`; booleans and
`null` fall to the default `%v` arm (no indent, `nil` prints `<nil>`). -/
def jsonFmat : Nat → GoJSON → GoStr → GoStr
  | 0, _, _ => []
  | Nat.succ fuel, v, ind =>
    match v with
    | .str s => ind ++ pad6 (goQuote s)
    | .num mant exp10 => ind ++ fmt62f mant exp10
    | .bool b => if b then gs "true" else gs "false"
    | .null => gs "<nil>"
    | .arr elems =>
      (gs "\n" ++ ind ++ gs "[\n") ++
      (elems.map (fun v2 => jsonFmat fuel v2 (gs "  " ++ ind) ++ gs "\n")).flatten ++
      ind ++ gs "]"
    | .obj fields =>
      let rendered := fields.map (fun p => (p.1, jsonFmat fuel p.2 (gs "  " ++ ind)))
      let sorted := rendered.insertionSort (fun a b => strLeb a.1 b.1 = true)
      gs "\n" ++
      (sorted.map (fun p => ind ++ p.1 ++ gs ": " ++ p.2 ++ gs "\n")).flatten

/-! #### A model of `encoding/json.Unmarshal` into `interface{}`.

Recursive-descent parser over the input bytes (read as Latin-1
characters; multi-byte UTF-8 sequences and `\u` surrogate pairs are kept
as their raw units — all inputs relevant here are ASCII).  `fuel` bounds
the recursion depth; `jsonUnmarshal` supplies more than enough. -/

/-- Skip JSON whitespace. -/
def skipWs (s : GoStr) : GoStr :=
  s.dropWhile (fun c => c = ' ' || c = '\t' || c = '\n' || c = '\r')

/-- Hex digit value. -/
def hexVal (c : Char) : Option Nat :=
  if '0' ≤ c ∧ c ≤ '9' then Option.some (c.toNat - '0'.toNat)
  else if 'a' ≤ c ∧ c ≤ 'f' then Option.some (c.toNat - 'a'.toNat + 10)
  else if 'A' ≤ c ∧ c ≤ 'F' then Option.some (c.toNat - 'A'.toNat + 10)
  else Option.none

/-- Parse the body of a JSON string (after the opening quote), returning
the decoded string and the remaining input. -/
def parseStringBody : GoStr → Option (GoStr × GoStr)
  | [] => Option.none
  | '"' :: rest => Option.some ([], rest)
  | '\\' :: 'u' :: a :: b :: c :: d :: rest =>
    match hexVal a, hexVal b, hexVal c, hexVal d with
    | Option.some x, Option.some y, Option.some z, Option.some w =>
      (parseStringBody rest).map
        (fun p => (Char.ofNat (((x * 16 + y) * 16 + z) * 16 + w) :: p.1, p.2))
    | _, _, _, _ => Option.none
  | '\\' :: e :: rest =>
    let dec : Option Char :=
      if e = '"' then Option.some '"'
      else if e = '\\' then Option.some '\\'
      else if e = '/' then Option.some '/'
      else if e = 'b' then Option.some (Char.ofNat 8)
      else if e = 'f' then Option.some (Char.ofNat 12)
      else if e = 'n' then Option.some '\n'
      else if e = 'r' then Option.some (Char.ofNat 13)
      else if e = 't' then Option.some '\t'
      else Option.none
    match dec with
    | Option.some ch => (parseStringBody rest).map (fun p => (ch :: p.1, p.2))
    | Option.none => Option.none
  | c :: rest =>
    if c.toNat < 0x20 then Option.none
    else (parseStringBody rest).map (fun p => (c :: p.1, p.2))

/-- Decimal digits value. -/
def digitsVal (ds : GoStr) : Nat :=
  ds.foldl (fun acc c => acc * 10 + (c.toNat - '0'.toNat)) 0

/-- Parse a JSON number literal into its exact rational value. -/
def parseNumber (s : GoStr) : Option (GoJSON × GoStr) :=
  let (neg, s1) := match s with
    | '-' :: r => (true, r)
    | _ => (false, s)
  let intDigits := s1.takeWhile Char.isDigit
  let s2 := s1.dropWhile Char.isDigit
  if intDigits = [] then Option.none
  else if intDigits.length > 1 ∧ intDigits.head? = Option.some '0' then Option.none
  else
    let (fracDigits, s3) := match s2 with
      | '.' :: r =>
        (r.takeWhile Char.isDigit, r.dropWhile Char.isDigit)
      | _ => ([], s2)
    if s2 ≠ s3 ∧ fracDigits = [] then Option.none
    else
      let expPart : Option (Int × GoStr) := match s3 with
        | 'e' :: r | 'E' :: r =>
          let (esign, r1) := match r with
            | '+' :: r2 => ((1 : Int), r2)
            | '-' :: r2 => ((-1 : Int), r2)
            | _ => ((1 : Int), r)
          let eds := r1.takeWhile Char.isDigit
          if eds = [] then Option.none
          else Option.some (esign * digitsVal eds, r1.dropWhile Char.isDigit)
        | _ => Option.some (0, s3)
      match expPart with
      | Option.none => Option.none
      | Option.some (e10, s4) =>
        let m : Int := digitsVal (intDigits ++ fracDigits)
        let e : Int := e10 - fracDigits.length
        Option.some (.num (if neg then -m else m) e, s4)

/-- Overwrite-or-append one field of the decoded Go map (later duplicate
keys overwrite earlier ones, as map assignment does). -/
def upsertField : List (GoStr × GoJSON) → GoStr → GoJSON → List (GoStr × GoJSON)
  | [], k, v => [(k, v)]
  | (k', v') :: rest, k, v =>
    if k' = k then (k', v) :: rest else (k', v') :: upsertField rest k v

/-- Build the decoded map from the parsed fields in order. -/
def mapFromFields (kvs : List (GoStr × GoJSON)) : List (GoStr × GoJSON) :=
  kvs.foldl (fun acc p => upsertField acc p.1 p.2) []

mutual

/-- Parse one JSON value. -/
def parseValue : Nat → GoStr → Option (GoJSON × GoStr)
  | 0, _ => Option.none
  | fuel + 1, s =>
    match skipWs s with
    | '"' :: rest => (parseStringBody rest).map (fun p => (.str p.1, p.2))
    | 't' :: rest =>
      if (gs "rue").isPrefixOf rest then Option.some (.bool true, rest.drop 3)
      else Option.none
    | 'f' :: rest =>
      if (gs "alse").isPrefixOf rest then Option.some (.bool false, rest.drop 4)
      else Option.none
    | 'n' :: rest =>
      if (gs "ull").isPrefixOf rest then Option.some (.null, rest.drop 3)
      else Option.none
    | '[' :: rest =>
      (match skipWs rest with
       | ']' :: r2 => Option.some (.arr [], r2)
       | r1 => (parseElems fuel r1).map (fun p => (.arr p.1, p.2)))
    | '{' :: rest =>
      (match skipWs rest with
       | '}' :: r2 => Option.some (.obj [], r2)
       | r1 => (parseFields fuel r1).map (fun p => (.obj (mapFromFields p.1), p.2)))
    | r => parseNumber r

/-- Parse the elements of a (non-empty) JSON array. -/
def parseElems : Nat → GoStr → Option (List GoJSON × GoStr)
  | 0, _ => Option.none
  | fuel + 1, s =>
    match parseValue fuel s with
    | Option.none => Option.none
    | Option.some (v, r) =>
      match skipWs r with
      | ',' :: r2 => (parseElems fuel r2).map (fun p => (v :: p.1, p.2))
      | ']' :: r2 => Option.some ([v], r2)
      | _ => Option.none

/-- Parse the fields of a (non-empty) JSON object. -/
def parseFields : Nat → GoStr → Option (List (GoStr × GoJSON) × GoStr)
  | 0, _ => Option.none
  | fuel + 1, s =>
    match skipWs s with
    | '"' :: rest =>
      (match parseStringBody rest with
       | Option.none => Option.none
       | Option.some (k, r) =>
         match skipWs r with
         | ':' :: r2 =>
           (match parseValue fuel r2 with
            | Option.none => Option.none
            | Option.some (v, r3) =>
              match skipWs r3 with
              | ',' :: r4 => (parseFields fuel r4).map (fun p => ((k, v) :: p.1, p.2))
              | '}' :: r4 => Option.some ([(k, v)], r4)
              | _ => Option.none)
         | _ => Option.none)
    | _ => Option.none

end

/-- `json.Unmarshal(in, &outJSON)`: parse the whole input as one JSON
value (with only trailing whitespace allowed). -/
def jsonUnmarshal (input : List Nat) : Option GoJSON :=
  let s := input.map Char.ofNat
  match parseValue (2 * s.length + 2) s with
  | Option.some (v, rest) => if skipWs rest = [] then Option.some v else Option.none
  | Option.none => Option.none

/-- The formatter closure built by `jsonFormatter` of cbtdoc.go (the
enclosing `jsonFormatter` itself always returns it with a `nil` error).
Go reports a syntax error from `json.Unmarshal`; the model uses a fixed
error text, no claim depends on the message. -/
def jsonFormatterFn (f : valueFormatting) : valueFormatter :=
  fun input =>
    match jsonUnmarshal input with
    | Option.none => .error (gs "invalid JSON input")
    | Option.some v =>
      .ok ((jsonFmat (input.length + 1) v []).dropWhile (· = '\n'))

/-! ### `format`: per-cell formatting with the formatter cache -/

/-- `strings.SplitN(s, sep, 2)` for a one-character separator: `[s]` when
`sep` does not occur, else `[before, after]` split at the first `sep`. -/
def goSplitFirst : GoStr → Char → Option (GoStr × GoStr)
  | [], _ => Option.none
  | c :: rest, sep =>
    if c = sep then Option.some ([], rest)
    else (goSplitFirst rest sep).map (fun p => (c :: p.1, p.2))

/-- `strings.SplitN(s, sep, 2)`. -/
def goSplitN2 (s : GoStr) (sep : Char) : List GoStr :=
  match goSplitFirst s sep with
  | Option.some (a, b) => [a, b]
  | Option.none => [s]

/-- `strings.Replace(s, old, new, n)` for the one-character pattern the
source uses (`old = "\n"`). -/
def replaceChar : GoStr → Char → GoStr → Nat → GoStr
  | [], _, _, _ => []
  | s, _, _, 0 => s
  | a :: rest, c, new, Nat.succ m =>
    if a = c then new ++ replaceChar rest c new m
    else a :: replaceChar rest c new (Nat.succ m)

/-- `strings.TrimSuffix`. -/
def goTrimSuffix (s suffix : GoStr) : GoStr :=
  if suffix <:+ s then s.take (s.length - suffix.length) else s

/-- The indentation wrap applied by `format` to a successful decoder
output (`pfx` is the `prefix` argument; `prefix` is reserved in Lean):
`prefix + TrimSuffix(Replace(formatted, "\n", "\n"+prefix, 999999), prefix) + "\n"`. -/
def wrapWithIndent (pfx formatted : GoStr) : GoStr :=
  pfx ++ goTrimSuffix (replaceChar formatted '\n' ('\n' :: pfx) 999999) pfx ++ gs "\n"

/-- Apply a formatter and wrap a successful result, as the tail of
`format` does (`if err == nil { formatted = prefix + ... + "\n" }`). -/
def applyAndWrap (pfx : GoStr) (formatter : valueFormatter) (value : List Nat) :
    Except GoStr GoStr :=
  match formatter value with
  | .error err => .error err
  | .ok formatted => .ok (wrapWithIndent pfx formatted)

/-- The formatter chosen by the `switch validEncoding` of `format` once
validation has succeeded; `Option.none` models the early `return "", err`
of the `protocolBuffer` arm when `pbFormatter` fails (the only arm that
can fail: `jsonFormatter` never returns an error). -/
def buildFormatter (f : valueFormatting) (validEncoding : validEncodings)
    (ctype : GoStr) : Option valueFormatter :=
  match validEncoding with
  | .bigEndian | .littleEndian => Option.some (binaryFormatter f validEncoding ctype)
  | .hex => Option.some (hexFormatter f)
  | .protocolBuffer =>
    match pbFormatter f ctype with
    | .error _ => Option.none
    | .ok fmtr => Option.some fmtr
  | .jsonEncoded => Option.some (jsonFormatterFn f)
  | .none => Option.some (defaultFormatter f)

/-- The error `pbFormatter` returned when `buildFormatter` is `none`. -/
def buildFormatterErr (f : valueFormatting) (ctype : GoStr) : GoStr :=
  match pbFormatter f ctype with
  | .error err => err
  | .ok _ => []

/-- `format` of cbtdoc.go.  Returns the `(string, error)` pair together
with the engine state, whose `formatters` cache the call may extend
(`f.formatters[key] = formatter` is modelled by consing the new entry;
the key was absent, so lookups agree). -/
def format (f : valueFormatting) (pfx family column : GoStr) (value : List Nat) :
    Except GoStr GoStr × valueFormatting :=
  match goSplitN2 column ':' with
  | [fam, col] =>
    if fam ≠ family then
      (.error (gs "family, " ++ family ++ gs ", and column family, " ++ fam ++
        gs ", don\x27t match"), f)
    else
      let key := (family, col)
      match lookupGoMap f.formatters key with
      | Option.some formatter => (applyAndWrap pfx formatter value, f)
      | Option.none =>
        let ec := colEncodingType f family col
        match validateFormat f col ec.1 ec.2 with
        | .error err =>
          let formatter := badFormatter f err
          (applyAndWrap pfx formatter value,
           { f with formatters := (key, formatter) :: f.formatters })
        | .ok (validEncoding, ctype) =>
          match buildFormatter f validEncoding ctype with
          | Option.none => (.error (buildFormatterErr f ctype), f)
          | Option.some formatter =>
            (applyAndWrap pfx formatter value,
             { f with formatters := (key, formatter) :: f.formatters })
  | _ => (.error (gs "column name doesn't include family and column"), f)

/-! ### Concrete configurations used to instantiate the theorems -/

/-- Settings with one top-level binary column `c1` (encoding `B`,
type `int32`). -/
def sampleBinarySettings : valueFormatting :=
  { newValueFormatting with settings :=
    { newValueFormatting.settings with
      Columns := [(gs "c1", ⟨gs "B", gs "int32"⟩)] } }

/-- Settings with one top-level column `c1` declaring encoding `B` and no
type anywhere (validation must fail). -/
def sampleNoTypeSettings : valueFormatting :=
  { newValueFormatting with settings :=
    { newValueFormatting.settings with
      Columns := [(gs "c1", ⟨gs "B", []⟩)] } }

/-- Settings with one top-level JSON column `j`. -/
def sampleJsonSettings : valueFormatting :=
  { newValueFormatting with settings :=
    { newValueFormatting.settings with
      Columns := [(gs "j", ⟨gs "json", []⟩)] } }

/-- Settings with family `fam` (defaults `B`/`int32`, no columns of its
own) and a colliding top-level override for column `c` (encoding `hex`). -/
def sampleFamilySettings : valueFormatting :=
  { newValueFormatting with settings :=
    { newValueFormatting.settings with
      Columns := [(gs "c", ⟨gs "hex", []⟩)]
    , Families := [(gs "fam", ⟨gs "B", gs "int32", []⟩)] } }

/-- Settings with global default encoding `B`, no type anywhere, two
top-level columns and one family column (three validation violations). -/
def sampleMultiErrSettings : valueFormatting :=
  { newValueFormatting with settings :=
    { newValueFormatting.settings with
      DefaultEncoding := gs "B"
    , Columns := [(gs "c1", ⟨[], []⟩), (gs "c2", ⟨[], []⟩)]
    , Families := [(gs "f", ⟨[], [], [(gs "c3", ⟨[], []⟩)]⟩)] } }

/-- A block of text ends with exactly one trailing newline. -/
def endsWithExactlyOneNewline (s : GoStr) : Prop :=
  gs "\n" <:+ s ∧ ¬ gs "\n\n" <:+ s

/-- The byte slice of an ASCII string. -/
def asciiBytes (s : String) : List Nat := s.data.map Char.toNat

end Cbt

namespace Cbt

/-! ## Theorems -/

/-- C3: the spec says `int8`/`uint8` have element width 1 byte, so every
byte slice decodes and a one-byte input renders as a bare scalar.  The
code instead passes element size `2` for both (while allocating one
element per byte), so a one-byte input fails with the length-mismatch
error, and a two-byte input is rendered as two values with the brackets
stripped.  This theorem evaluates the code at the failing inputs. -/
theorem C3_int8_uint8_element_size_two :
    ((lookupGoMap binaryValueFormatters (gs "int8")).map (fun g => g [5] .big) =
      Option.some (.error (gs "data size, 1, isn\x27t a multiple of element size, 2"))) ∧
    ((lookupGoMap binaryValueFormatters (gs "uint8")).map (fun g => g [7] .big) =
      Option.some (.error (gs "data size, 1, isn\x27t a multiple of element size, 2"))) ∧
    ((lookupGoMap binaryValueFormatters (gs "int8")).map (fun g => g [0, 1] .big) =
      Option.some (.ok (gs "0 1"))) := by
  refine ⟨rfl, rfl, rfl⟩

/-- C4: the aliases `bigendian`/`b`/`binary` and `littleendian` resolve
case-insensitively, but the single-letter little-endian alias is stored
as capital `L` in the map while lookups lower-case their input, so both
`l` and `L` are rejected with the unknown-encoding error even though the
map itself declares the alias. -/
theorem C4_littleendian_single_letter_alias_rejected :
    validateEncoding newValueFormatting (gs "littleendian") = .ok .littleEndian ∧
    validateEncoding newValueFormatting (gs "LittleEndian") = .ok .littleEndian ∧
    validateEncoding newValueFormatting (gs "bigendian") = .ok .bigEndian ∧
    validateEncoding newValueFormatting (gs "b") = .ok .bigEndian ∧
    validateEncoding newValueFormatting (gs "Binary") = .ok .bigEndian ∧
    validateEncoding newValueFormatting (gs "l") = .error (gs "invalid encoding: l") ∧
    validateEncoding newValueFormatting (gs "L") = .error (gs "invalid encoding: L") ∧
    lookupGoMap validValueFormattingEncodings (gs "L") = Option.some .littleEndian := by
  refine ⟨rfl, rfl, rfl, rfl, rfl, rfl, rfl, rfl⟩

/-- C8: decoding the 16 bytes `{0,1,2,3,4,5,6,7,255,...,255,156}` as
binary `int32` yields `[66051 67438087 -1 -100]` big-endian and
`[50462976 117835012 -1 -1660944385]` little-endian. -/
theorem C8_int32_decode_both_byte_orders :
    binaryFormatter newValueFormatting .bigEndian (gs "int32")
        [0, 1, 2, 3, 4, 5, 6, 7, 255, 255, 255, 255, 255, 255, 255, 156] =
      .ok (gs "[66051 67438087 -1 -100]") ∧
    binaryFormatter newValueFormatting .littleEndian (gs "int32")
        [0, 1, 2, 3, 4, 5, 6, 7, 255, 255, 255, 255, 255, 255, 255, 156] =
      .ok (gs "[50462976 117835012 -1 -1660944385]") := by
  refine ⟨rfl, rfl⟩

/-- C10: if `validateFormat` succeeded with a BigEndian or LittleEndian
encoding, the type name it returns is the lower-cased declared type and is
present in `binaryValueFormatters`, so the unchecked lookup in
`binaryFormatter` finds a function and the built formatter only ever
invokes that function (never the missing-function branch). -/
theorem C10_validated_binary_type_lookup_is_safe
    (f : valueFormatting) (cname encoding ctype : GoStr)
    (ve : validEncodings) (ct : GoStr)
    (h : validateFormat f cname encoding ctype = .ok (ve, ct))
    (hve : ve = .bigEndian ∨ ve = .littleEndian) :
    ct = goToLower ctype ∧
    ∃ g, lookupGoMap binaryValueFormatters ct = Option.some g ∧
      ∀ input, binaryFormatter f ve ct input =
        g input (if ve = .bigEndian then .big else .little) := by
  unfold validateFormat at h
  cases hev : validateEncoding f encoding with
  | error e => rw [hev] at h; exact absurd h (by simp)
  | ok ve0 =>
    rw [hev] at h
    dsimp only at h
    cases htv : validateType f cname ve0 encoding ctype with
    | error e => rw [htv] at h; exact absurd h (by simp)
    | ok ct0 =>
      rw [htv] at h
      injection h with h
      injection h with h1 h2
      subst h1; subst h2
      rcases hve with h1 | h1 <;> subst h1 <;>
        unfold validateType at htv <;>
        (by_cases hc : ctype = []
         · simp [hc] at htv
         · simp only [hc, if_neg, if_false] at htv
           revert htv
           cases hl : lookupGoMap binaryValueFormatters (goToLower ctype) with
           | none => intro htv; simp at htv
           | some g =>
             intro htv
             simp only [Except.ok.injEq] at htv
             subst htv
             refine ⟨rfl, g, hl, fun input => ?_⟩
             simp [binaryFormatter, hl])

/-- C10 witness: a concrete successful validation (`B`, `Int32`). -/
theorem C10_witness :
    gs "int32" = goToLower (gs "Int32") ∧
    ∃ g, lookupGoMap binaryValueFormatters (gs "int32") = Option.some g ∧
      ∀ input, binaryFormatter newValueFormatting .bigEndian (gs "int32") input =
        g input (if validEncodings.bigEndian = .bigEndian then .big else .little) :=
  C10_validated_binary_type_lookup_is_safe newValueFormatting
    (gs "c") (gs "B") (gs "Int32") .bigEndian (gs "int32") rfl (Or.inl rfl)

/-- C1: resolution precedence is asymmetric.  When the family has an
entry in `settings.families`, `colEncodingType` resolves from the global
defaults overridden by the family defaults (plus that family's own column
override when present), and the top-level `settings.columns` map is never
consulted — replacing it changes nothing.  Only when the family has no
entry is `settings.columns[column]` overridden onto the global defaults. -/
theorem C1_family_entry_shadows_top_level_columns
    (f : valueFormatting) (family column : GoStr) :
    (∀ fam, lookupGoMap f.settings.Families family = Option.some fam →
      (colEncodingType f family column =
        (match lookupGoMap fam.Columns column with
         | Option.some col =>
           (override f (override f f.settings.DefaultEncoding fam.DefaultEncoding) col.Encoding,
            override f (override f f.settings.DefaultType fam.DefaultType) col.Typ)
         | Option.none =>
           (override f f.settings.DefaultEncoding fam.DefaultEncoding,
            override f f.settings.DefaultType fam.DefaultType))) ∧
      (∀ cols', colEncodingType
          { f with settings := { f.settings with Columns := cols' } } family column =
        colEncodingType f family column)) ∧
    (lookupGoMap f.settings.Families family = Option.none →
      colEncodingType f family column =
        (match lookupGoMap f.settings.Columns column with
         | Option.some col =>
           (override f f.settings.DefaultEncoding col.Encoding,
            override f f.settings.DefaultType col.Typ)
         | Option.none => (f.settings.DefaultEncoding, f.settings.DefaultType))) := by
  constructor
  · intro fam hfam
    constructor
    · simp [colEncodingType, hfam]
    · intro cols'
      simp [colEncodingType, hfam, override]
  · intro hfam
    simp [colEncodingType, hfam]

/-- C1 witness: in `sampleFamilySettings`, family `fam` is declared (with
defaults `B`/`int32`) and does not declare column `c`, while the top-level
columns map declares `c` with encoding `hex`; resolution returns the
family defaults, and replacing the top-level columns map with an empty
one changes nothing. -/
theorem C1_witness :
    colEncodingType
        { sampleFamilySettings with settings :=
          { sampleFamilySettings.settings with Columns := [] } }
        (gs "fam") (gs "c") =
      colEncodingType sampleFamilySettings (gs "fam") (gs "c") ∧
    colEncodingType sampleFamilySettings (gs "fam") (gs "c") = (gs "B", gs "int32") := by
  have h := (C1_family_entry_shadows_top_level_columns
    sampleFamilySettings (gs "fam") (gs "c")).1 ⟨gs "B", gs "int32", []⟩ rfl
  exact ⟨h.2 [], by rw [h.1]; rfl⟩

/-- C7: setup-time validation visits every declared column of the
top-level map and of every family, accumulating all violations — one
line per violating column, top-level lines first and then family lines,
each in map (insertion) order — into one newline-joined report behind
the `bad encoding and types:` header; with no violation it returns no
error. -/
theorem C7_validate_columns_accumulates_all_violations (f : valueFormatting) :
    (validateColumns f = Option.none ↔
      (∀ p ∈ f.settings.Columns, ∃ v, validateFormat f p.1
          (override f f.settings.DefaultEncoding p.2.Encoding)
          (override f f.settings.DefaultType p.2.Typ) = .ok v) ∧
      (∀ q ∈ f.settings.Families, ∀ p ∈ q.2.Columns, ∃ v, validateFormat f p.1
          (override f (override f f.settings.DefaultEncoding q.2.DefaultEncoding) p.2.Encoding)
          (override f (override f f.settings.DefaultType q.2.DefaultType) p.2.Typ) = .ok v)) ∧
    (∀ msg, validateColumns f = Option.some msg →
      msg = gs "bad encoding and types:\n" ++
        goJoin (gs "\n") (validateColumnsTopErrs f ++ validateColumnsFamErrs f)) ∧
    (∀ p ∈ f.settings.Columns, ∀ e, validateFormat f p.1
        (override f f.settings.DefaultEncoding p.2.Encoding)
        (override f f.settings.DefaultType p.2.Typ) = .error e →
      (p.1 ++ gs ": " ++ e) ∈ validateColumnsTopErrs f) ∧
    (∀ q ∈ f.settings.Families, ∀ p ∈ q.2.Columns, ∀ e, validateFormat f p.1
        (override f (override f f.settings.DefaultEncoding q.2.DefaultEncoding) p.2.Encoding)
        (override f (override f f.settings.DefaultType q.2.DefaultType) p.2.Typ) = .error e →
      (q.1 ++ gs ":" ++ p.1 ++ gs ": " ++ e) ∈ validateColumnsFamErrs f) := by
  refine ⟨?_, ?_, ?_, ?_⟩
  · have key : validateColumns f = Option.none ↔
        validateColumnsTopErrs f ++ validateColumnsFamErrs f = [] := by
      unfold validateColumns
      by_cases h : validateColumnsTopErrs f ++ validateColumnsFamErrs f = [] <;> simp [h]
    rw [key, List.append_eq_nil]
    unfold validateColumnsTopErrs validateColumnsFamErrs
    rw [List.filterMap_eq_nil_iff, List.flatMap_eq_nil_iff]
    constructor
    · rintro ⟨h1, h2⟩
      constructor
      · intro p hp
        have h := h1 p hp
        cases hr : validateFormat f p.1
            (override f f.settings.DefaultEncoding p.2.Encoding)
            (override f f.settings.DefaultType p.2.Typ) with
        | error e => rw [hr] at h; simp at h
        | ok v => exact ⟨v, rfl⟩
      · intro q hq p hp
        have h := (List.filterMap_eq_nil_iff).mp (h2 q hq) p hp
        cases hr : validateFormat f p.1
            (override f (override f f.settings.DefaultEncoding q.2.DefaultEncoding) p.2.Encoding)
            (override f (override f f.settings.DefaultType q.2.DefaultType) p.2.Typ) with
        | error e => rw [hr] at h; simp at h
        | ok v => exact ⟨v, rfl⟩
    · rintro ⟨h1, h2⟩
      constructor
      · intro p hp
        obtain ⟨v, hv⟩ := h1 p hp
        rw [hv]
      · intro q hq
        apply List.filterMap_eq_nil_iff.mpr
        intro p hp
        obtain ⟨v, hv⟩ := h2 q hq p hp
        rw [hv]
  · intro msg h
    unfold validateColumns at h
    by_cases he : validateColumnsTopErrs f ++ validateColumnsFamErrs f = []
    · simp [he] at h
    · simp only [he, if_neg, if_false, Option.some.injEq] at h
      exact h.symm
  · intro p hp e he
    unfold validateColumnsTopErrs
    exact List.mem_filterMap.mpr ⟨p, hp, by rw [he]⟩
  · intro q hq p hp e he
    unfold validateColumnsFamErrs
    exact List.mem_flatMap.mpr ⟨q, hq, List.mem_filterMap.mpr ⟨p, hp, by rw [he]⟩⟩

/-- C7 witness: with global default encoding `B` and no type anywhere,
all three declared columns (`c1`, `c2`, top-level; `c3` in family `f`)
violate, and the combined report lists every one of them. -/
theorem C7_witness :
    (gs "bad encoding and types:\nc1: no type specified for encoding: B\nc2: no type specified for encoding: B\nf:c3: no type specified for encoding: B" =
      gs "bad encoding and types:\n" ++ goJoin (gs "\n")
        (validateColumnsTopErrs sampleMultiErrSettings ++
         validateColumnsFamErrs sampleMultiErrSettings)) ∧
    (gs "c2: no type specified for encoding: B") ∈
      validateColumnsTopErrs sampleMultiErrSettings ∧
    (gs "f:c3: no type specified for encoding: B") ∈
      validateColumnsFamErrs sampleMultiErrSettings := by
  refine ⟨?_, ?_, ?_⟩
  · exact (C7_validate_columns_accumulates_all_violations sampleMultiErrSettings).2.1 _ rfl
  · exact (C7_validate_columns_accumulates_all_violations sampleMultiErrSettings).2.2.1
      (gs "c2", ⟨[], []⟩) (by decide) (gs "no type specified for encoding: B") rfl
  · exact (C7_validate_columns_accumulates_all_violations sampleMultiErrSettings).2.2.2
      (gs "f", ⟨[], [], [(gs "c3", ⟨[], []⟩)]⟩) (by decide)
      (gs "c3", ⟨[], []⟩) (by decide) (gs "no type specified for encoding: B") rfl

/-- Splitting a qualified column name at its first colon recovers the
family (when the family itself contains no colon) and the qualifier. -/
theorem goSplitFirst_family_colon (family col : GoStr) (h : ':' ∉ family) :
    goSplitFirst (family ++ ':' :: col) ':' = Option.some (family, col) := by
  induction family with
  | nil => simp [goSplitFirst]
  | cons a rest ih =>
    have ha : a ≠ ':' := fun hc => h (hc ▸ List.mem_cons_self a rest)
    have hrest : ':' ∉ rest := fun hc => h (List.mem_cons_of_mem a hc)
    simp [goSplitFirst, ha, ih hrest]

/-- `SplitN(family ++ ":" ++ col, ":", 2) = [family, col]`. -/
theorem goSplitN2_family_colon (family col : GoStr) (h : ':' ∉ family) :
    goSplitN2 (family ++ ':' :: col) ':' = [family, col] := by
  simp [goSplitN2, goSplitFirst_family_colon family col h]

/-- The head entry of the cache is found. -/
theorem lookupGoMap_cons_self {κ α : Type} [DecidableEq κ] (k : κ) (v : α)
    (rest : List (κ × α)) : lookupGoMap ((k, v) :: rest) k = Option.some v := by
  simp [lookupGoMap]

/-- A cache hit applies the stored formatter and leaves the state alone. -/
theorem format_cache_hit (f : valueFormatting) (pfx family col : GoStr)
    (value : List Nat) (fmtr : valueFormatter)
    (hcolon : ':' ∉ family)
    (hhit : lookupGoMap f.formatters (family, col) = Option.some fmtr) :
    format f pfx family (family ++ ':' :: col) value =
      (applyAndWrap pfx fmtr value, f) := by
  simp [format, goSplitN2_family_colon family col hcolon, hhit]

/-- A cache miss with a successfully validated and built formatter stores
that formatter and applies it. -/
theorem format_cache_miss_built (f : valueFormatting) (pfx family col : GoStr)
    (value : List Nat) (ve : validEncodings) (ct : GoStr) (fmtr : valueFormatter)
    (hcolon : ':' ∉ family)
    (hmiss : lookupGoMap f.formatters (family, col) = Option.none)
    (hval : validateFormat f col (colEncodingType f family col).1
        (colEncodingType f family col).2 = .ok (ve, ct))
    (hbuild : buildFormatter f ve ct = Option.some fmtr) :
    format f pfx family (family ++ ':' :: col) value =
      (applyAndWrap pfx fmtr value,
       { f with formatters := ((family, col), fmtr) :: f.formatters }) := by
  simp [format, goSplitN2_family_colon family col hcolon, hmiss, hval, hbuild]

/-- A cache miss whose validation fails stores `badFormatter err`. -/
theorem format_cache_miss_invalid (f : valueFormatting) (pfx family col : GoStr)
    (value : List Nat) (err : GoStr)
    (hcolon : ':' ∉ family)
    (hmiss : lookupGoMap f.formatters (family, col) = Option.none)
    (hval : validateFormat f col (colEncodingType f family col).1
        (colEncodingType f family col).2 = .error err) :
    format f pfx family (family ++ ':' :: col) value =
      (.error err,
       { f with formatters := ((family, col), badFormatter f err) :: f.formatters }) := by
  simp [format, goSplitN2_family_colon family col hcolon, hmiss, hval,
    applyAndWrap, badFormatter]

/-- C2: per-cell decode errors are not cached.  When the configuration of
a fresh (family, column) pair validates and its decoder builds, the first
`format` call stores that decoder in the cache no matter whether decoding
the first value failed; the call returns the decode error, and a second
call for the same pair applies the same stored decoder to the new value
(so a well-formed second value formats successfully). -/
theorem C2_decode_errors_are_not_cached
    (f : valueFormatting) (pfx family col : GoStr) (v1 v2 : List Nat)
    (ve : validEncodings) (ct : GoStr) (fmtr : valueFormatter)
    (hcolon : ':' ∉ family)
    (hmiss : lookupGoMap f.formatters (family, col) = Option.none)
    (hval : validateFormat f col (colEncodingType f family col).1
        (colEncodingType f family col).2 = .ok (ve, ct))
    (hbuild : buildFormatter f ve ct = Option.some fmtr) :
    ((format f pfx family (family ++ ':' :: col) v1).2).formatters =
        ((family, col), fmtr) :: f.formatters ∧
    (format f pfx family (family ++ ':' :: col) v1).1 = applyAndWrap pfx fmtr v1 ∧
    (format ((format f pfx family (family ++ ':' :: col) v1).2) pfx family
        (family ++ ':' :: col) v2) =
      (applyAndWrap pfx fmtr v2, (format f pfx family (family ++ ':' :: col) v1).2) ∧
    (∀ err, fmtr v1 = .error err →
      (format f pfx family (family ++ ':' :: col) v1).1 = .error err) ∧
    (∀ s, fmtr v2 = .ok s →
      (format ((format f pfx family (family ++ ':' :: col) v1).2) pfx family
          (family ++ ':' :: col) v2).1 = .ok (wrapWithIndent pfx s)) := by
  have h1 := format_cache_miss_built f pfx family col v1 ve ct fmtr hcolon hmiss hval hbuild
  have hfmts : ((format f pfx family (family ++ ':' :: col) v1).2).formatters =
      ((family, col), fmtr) :: f.formatters := by rw [h1]
  have hhit : lookupGoMap ((format f pfx family (family ++ ':' :: col) v1).2).formatters
      (family, col) = Option.some fmtr := by
    rw [hfmts]; exact lookupGoMap_cons_self _ _ _
  have h2 := format_cache_hit ((format f pfx family (family ++ ':' :: col) v1).2)
    pfx family col v2 fmtr hcolon hhit
  refine ⟨hfmts, by rw [h1], by rw [h2], ?_, ?_⟩
  · intro err herr
    rw [h1]
    simp [applyAndWrap, herr]
  · intro s hs
    rw [h2]
    simp [applyAndWrap, hs]

/-- C2 witness: column `f1:c1` is configured `B`/`int32`; a 3-byte value
fails with the length-mismatch decode error, yet the following 4-byte
value formats successfully through the cached decoder. -/
theorem C2_witness :
    (format sampleBinarySettings [] (gs "f1") (gs "f1" ++ ':' :: gs "c1") [0, 1, 2]).1 =
      .error (gs "data size, 3, isn\x27t a multiple of element size, 4") ∧
    (format (format sampleBinarySettings [] (gs "f1") (gs "f1" ++ ':' :: gs "c1") [0, 1, 2]).2
        [] (gs "f1") (gs "f1" ++ ':' :: gs "c1") [0, 1, 2, 3]).1 = .ok (gs "66051\n") := by
  have H := C2_decode_errors_are_not_cached sampleBinarySettings [] (gs "f1") (gs "c1")
    [0, 1, 2] [0, 1, 2, 3] .bigEndian (gs "int32")
    (binaryFormatter sampleBinarySettings .bigEndian (gs "int32"))
    (by decide) rfl rfl rfl
  exact ⟨H.2.2.2.1 (gs "data size, 3, isn\x27t a multiple of element size, 4") rfl,
    H.2.2.2.2 (gs "66051") rfl⟩

/-- C9: configuration-level failures are cached permanently.  When
resolution/validation for a fresh (family, column) pair fails, `format`
stores an error formatter carrying the validation error; the call and
every later call for the pair return that same error, and the later call
leaves the engine state (hence the cache entry) unchanged. -/
theorem C9_validation_errors_cached_permanently
    (f : valueFormatting) (pfx family col : GoStr) (v1 v2 : List Nat) (err : GoStr)
    (hcolon : ':' ∉ family)
    (hmiss : lookupGoMap f.formatters (family, col) = Option.none)
    (hval : validateFormat f col (colEncodingType f family col).1
        (colEncodingType f family col).2 = .error err) :
    (format f pfx family (family ++ ':' :: col) v1).1 = .error err ∧
    ((format f pfx family (family ++ ':' :: col) v1).2).formatters =
      ((family, col), badFormatter f err) :: f.formatters ∧
    (format ((format f pfx family (family ++ ':' :: col) v1).2) pfx family
        (family ++ ':' :: col) v2) =
      (.error err, (format f pfx family (family ++ ':' :: col) v1).2) := by
  have h1 := format_cache_miss_invalid f pfx family col v1 err hcolon hmiss hval
  have hfmts : ((format f pfx family (family ++ ':' :: col) v1).2).formatters =
      ((family, col), badFormatter f err) :: f.formatters := by rw [h1]
  have hhit : lookupGoMap ((format f pfx family (family ++ ':' :: col) v1).2).formatters
      (family, col) = Option.some (badFormatter f err) := by
    rw [hfmts]; exact lookupGoMap_cons_self _ _ _
  have h2 := format_cache_hit ((format f pfx family (family ++ ':' :: col) v1).2)
    pfx family col v2 (badFormatter f err) hcolon hhit
  refine ⟨by rw [h1], hfmts, ?_⟩
  rw [h2]
  simp [applyAndWrap, badFormatter]

/-- C9 witness: column `f1:c1` declares encoding `B` with no type, so
validation fails; both calls return the same validation error and the
second call does not change the engine state. -/
theorem C9_witness :
    (format sampleNoTypeSettings [] (gs "f1") (gs "f1" ++ ':' :: gs "c1") [7]).1 =
      .error (gs "no type specified for encoding: B") ∧
    (format (format sampleNoTypeSettings [] (gs "f1") (gs "f1" ++ ':' :: gs "c1") [7]).2
        [] (gs "f1") (gs "f1" ++ ':' :: gs "c1") [8, 9]) =
      (.error (gs "no type specified for encoding: B"),
       (format sampleNoTypeSettings [] (gs "f1") (gs "f1" ++ ':' :: gs "c1") [7]).2) := by
  have H := C9_validation_errors_cached_permanently sampleNoTypeSettings [] (gs "f1")
    (gs "c1") [7] [8, 9] (gs "no type specified for encoding: B") (by decide) rfl rfl
  exact ⟨H.1, H.2.2⟩

/-! Lemmas about the indentation wrap, for claim C5. -/

theorem gs_newline : gs "\n" = ['\n'] := rfl

theorem gs_two_newlines : gs "\n\n" = ['\n', '\n'] := rfl

/-- `strings.Replace` with replacement budget 0 returns its input. -/
theorem replaceChar_zero (s : GoStr) (c : Char) (new : GoStr) :
    replaceChar s c new 0 = s := by
  cases s <;> rfl

/-- `strings.Replace` is the identity when the pattern does not occur. -/
theorem replaceChar_not_mem (s : GoStr) (c : Char) (new : GoStr) (n : Nat)
    (h : c ∉ s) : replaceChar s c new n = s := by
  induction s generalizing n with
  | nil => cases n <;> rfl
  | cons a rest ih =>
    cases n with
    | zero => rfl
    | succ m =>
      have ha : a ≠ c := fun hc => h (hc ▸ List.mem_cons_self a rest)
      have hrest : c ∉ rest := fun hc => h (List.mem_cons_of_mem a hc)
      simp [replaceChar, ha, ih _ hrest]

/-- A pattern-free block passes through `strings.Replace` unchanged. -/
theorem replaceChar_append_not_mem (l s : GoStr) (c : Char) (new : GoStr)
    (n : Nat) (h : c ∉ l) :
    replaceChar (l ++ s) c new n = l ++ replaceChar s c new n := by
  induction l generalizing n with
  | nil => simp
  | cons a rest ih =>
    cases n with
    | zero => simp [replaceChar_zero]
    | succ m =>
      have ha : a ≠ c := fun hc => h (hc ▸ List.mem_cons_self a rest)
      have hrest : c ∉ rest := fun hc => h (List.mem_cons_of_mem a hc)
      simp only [List.cons_append, replaceChar, if_neg ha]
      exact congrArg (List.cons a) (ih (Nat.succ m) hrest)

/-- Prepending the indent distributes over the newline-joined lines. -/
theorem prefix_goJoin (pfx : GoStr) (ls : List GoStr) (h : ls ≠ []) :
    pfx ++ goJoin ('\n' :: pfx) ls = goJoin (gs "\n") (ls.map (fun l => pfx ++ l)) := by
  induction ls with
  | nil => cases h rfl
  | cons x rest ih =>
    cases rest with
    | nil => simp [goJoin]
    | cons y t =>
      have ih2 := ih (by simp)
      simp only [goJoin, List.map_cons, gs_newline] at ih2 ⊢
      rw [← ih2]
      simp [List.append_assoc]

/-- Replacing each newline of a newline-join by newline-plus-indent joins
the lines with newline-plus-indent, given enough budget. -/
theorem replaceChar_goJoin (pfx : GoStr) (ls : List GoStr) (n : Nat)
    (h : ∀ l ∈ ls, '\n' ∉ l) (hn : ls.length ≤ n + 1) :
    replaceChar (goJoin (gs "\n") ls) '\n' ('\n' :: pfx) n =
      goJoin ('\n' :: pfx) ls := by
  induction ls generalizing n with
  | nil => cases n <;> rfl
  | cons x rest ih =>
    cases rest with
    | nil =>
      simp only [goJoin]
      exact replaceChar_not_mem _ _ _ _ (h x (by simp))
    | cons y t =>
      cases n with
      | zero =>
        exfalso
        simp only [List.length_cons] at hn
        omega
      | succ m =>
        have hx : '\n' ∉ x := h x (by simp)
        have step : goJoin (gs "\n") (x :: y :: t) =
            x ++ '\n' :: goJoin (gs "\n") (y :: t) := by
          simp [goJoin, gs_newline]
        rw [step, replaceChar_append_not_mem _ _ _ _ _ hx]
        simp only [replaceChar, if_pos rfl]
        rw [ih _ (fun l hl => h l (List.mem_cons_of_mem x hl))
          (by simp only [List.length_cons] at hn ⊢; omega)]
        simp [goJoin, List.append_assoc]

/-- Joining lines whose last line is empty appends a final separator. -/
theorem goJoin_append_nil_last (sep : GoStr) (init : List GoStr) (h : init ≠ []) :
    goJoin sep (init ++ [[]]) = goJoin sep init ++ sep := by
  induction init with
  | nil => cases h rfl
  | cons x rest ih =>
    cases rest with
    | nil => simp [goJoin]
    | cons y t =>
      have ih2 := ih (by simp)
      calc goJoin sep ((x :: y :: t) ++ [[]])
          = x ++ sep ++ goJoin sep ((y :: t) ++ [[]]) := by simp [goJoin]
        _ = x ++ sep ++ (goJoin sep (y :: t) ++ sep) := by rw [ih2]
        _ = goJoin sep (x :: y :: t) ++ sep := by simp [goJoin, List.append_assoc]

/-- `TrimSuffix` removes one trailing copy of the suffix. -/
theorem goTrimSuffix_append (s pfx : GoStr) : goTrimSuffix (s ++ pfx) pfx = s := by
  unfold goTrimSuffix
  rw [if_pos (List.suffix_append s pfx)]
  simp

/-- `TrimSuffix` with a non-suffix is the identity. -/
theorem goTrimSuffix_not_suffix (s pfx : GoStr) (h : ¬ pfx <:+ s) :
    goTrimSuffix s pfx = s := if_neg h

/-- `TrimSuffix` with the empty suffix is the identity. -/
theorem goTrimSuffix_nil (s : GoStr) : goTrimSuffix s [] = s := by
  unfold goTrimSuffix
  rw [if_pos List.nil_suffix]
  simp

/-- C5 counterexample: a JSON-formatted cell (decoder output ends with a
newline).  The wrapped result ends with two newlines, not exactly one as
the claim states. -/
theorem C5_counterexample_two_trailing_newlines :
    (format sampleJsonSettings (gs "    ") (gs "f1") (gs "f1:j")
        (asciiBytes "\x7b\"name\": \"Brave\", \"age\": 2\x7d")).1 =
      .ok (gs "    age:     2.00\n    name:   \"Brave\"\n\n") ∧
    ¬ endsWithExactlyOneNewline (gs "    age:     2.00\n    name:   \"Brave\"\n\n") := by
  constructor
  · decide
  · unfold endsWithExactlyOneNewline
    decide

/-- C5 (amended): on a successful `format` call, each line of the
decoder's raw output is prefixed with the indent and one newline is
appended to the block — so the block ends with exactly one trailing
newline only when the raw output does not itself end with a newline (and
no trailing copy of the indent gets trimmed); when the raw output ends
with a newline, the block ends with two newlines.  Stated over the
decomposition of the raw output into newline-free lines `ls` (at most
1000000 of them, the `strings.Replace` budget plus one). -/
theorem C5_amended_lines_prefixed_one_newline_appended
    (pfx : GoStr) (ls : List GoStr)
    (h0 : ls ≠ [])
    (hn : ∀ l ∈ ls, '\n' ∉ l)
    (hN : ls.length ≤ 1000000) :
    ((pfx = [] ∨ ¬ pfx <:+ goJoin ('\n' :: pfx) ls) →
      wrapWithIndent pfx (goJoin (gs "\n") ls) =
        goJoin (gs "\n") (ls.map (fun l => pfx ++ l)) ++ gs "\n") ∧
    (2 ≤ ls.length → ls.getLast h0 = [] →
      wrapWithIndent pfx (goJoin (gs "\n") ls) =
        goJoin (gs "\n") (ls.dropLast.map (fun l => pfx ++ l)) ++ gs "\n\n") := by
  have hrepl := replaceChar_goJoin pfx ls 999999 hn (by omega)
  constructor
  · intro hnt
    unfold wrapWithIndent
    rw [hrepl]
    rcases hnt with h | h
    · subst h
      rw [goTrimSuffix_nil, ← prefix_goJoin [] ls h0]
    · rw [goTrimSuffix_not_suffix _ _ h, ← prefix_goJoin pfx ls h0]
  · intro hlen hlast
    have hinit : ls.dropLast ≠ [] := by
      have hdl : ls.dropLast.length = ls.length - 1 := List.length_dropLast ls
      intro hc
      rw [hc] at hdl
      simp at hdl
      omega
    have hls : ls.dropLast ++ [[]] = ls := by
      conv_rhs => rw [← List.dropLast_append_getLast h0]
      rw [hlast]
    unfold wrapWithIndent
    rw [hrepl]
    conv_lhs => rw [← hls]
    rw [goJoin_append_nil_last _ _ hinit]
    rw [show goJoin ('\n' :: pfx) ls.dropLast ++ '\n' :: pfx =
      (goJoin ('\n' :: pfx) ls.dropLast ++ ['\n']) ++ pfx by simp]
    rw [goTrimSuffix_append]
    rw [← prefix_goJoin pfx ls.dropLast hinit]
    simp [gs_newline, gs_two_newlines, List.append_assoc]

/-- C5 witness: concrete instances of both branches of the amended claim
(`"ab\ncd"` keeps exactly one trailing newline; `"ab\n"` ends up with
two). -/
theorem C5_witness :
    wrapWithIndent (gs "  ") (goJoin (gs "\n") [gs "ab", gs "cd"]) =
      goJoin (gs "\n") ([gs "ab", gs "cd"].map (fun l => gs "  " ++ l)) ++ gs "\n" ∧
    wrapWithIndent (gs "  ") (goJoin (gs "\n") [gs "ab", []]) =
      goJoin (gs "\n") ([gs "ab", []].dropLast.map (fun l => gs "  " ++ l)) ++ gs "\n\n" := by
  constructor
  · exact (C5_amended_lines_prefixed_one_newline_appended (gs "  ") [gs "ab", gs "cd"]
      (by decide) (by decide) (by decide)).1 (Or.inr (by decide))
  · exact (C5_amended_lines_prefixed_one_newline_appended (gs "  ") [gs "ab", []]
      (by decide) (by decide) (by decide)).2 (by decide) (by decide)

/-! Lemmas about the key ordering used by the JSON renderer, for C6. -/

/-- `strLeb` is total. -/
theorem strLeb_total (s t : GoStr) : strLeb s t = true ∨ strLeb t s = true := by
  induction s generalizing t with
  | nil => left; rfl
  | cons a s ih =>
    cases t with
    | nil => right; rfl
    | cons b t =>
      by_cases hab : a = b
      · subst hab
        simpa [strLeb] using ih t
      · have hba : b ≠ a := Ne.symm hab
        have hne : a.toNat ≠ b.toNat := fun h => hab (Char.ext (UInt32.ext h))
        simp only [strLeb, if_neg hab, if_neg hba, decide_eq_true_eq]
        omega

/-- `strLeb` is transitive. -/
theorem strLeb_trans (s t u : GoStr) (h1 : strLeb s t = true)
    (h2 : strLeb t u = true) : strLeb s u = true := by
  induction s generalizing t u with
  | nil => rfl
  | cons a s ih =>
    cases t with
    | nil => simp [strLeb] at h1
    | cons b t =>
      cases u with
      | nil => simp [strLeb] at h2
      | cons c u =>
        by_cases hab : a = b <;> by_cases hbc : b = c
        · subst hab; subst hbc
          simp only [strLeb, if_pos rfl] at h1 h2 ⊢
          exact ih t u h1 h2
        · subst hab
          simp only [strLeb, if_pos rfl] at h1
          simpa [strLeb, hbc] using h2
        · subst hbc
          simp only [strLeb, if_pos rfl] at h2
          simpa [strLeb, hab] using h1
        · simp only [strLeb, if_neg hab, decide_eq_true_eq] at h1
          simp only [strLeb, if_neg hbc, decide_eq_true_eq] at h2
          have hac : a ≠ c := by
            intro h
            subst h
            have : a.toNat ≠ a.toNat := by omega
            exact this rfl
          simp only [strLeb, if_neg hac, decide_eq_true_eq]
          omega

/-- `strLeb` is antisymmetric. -/
theorem strLeb_antisymm (s t : GoStr) (h1 : strLeb s t = true)
    (h2 : strLeb t s = true) : s = t := by
  induction s generalizing t with
  | nil =>
    cases t with
    | nil => rfl
    | cons b t => simp [strLeb] at h2
  | cons a s ih =>
    cases t with
    | nil => simp [strLeb] at h1
    | cons b t =>
      by_cases hab : a = b
      · subst hab
        simp only [strLeb, if_pos rfl] at h1 h2
        rw [ih t h1 h2]
      · have hba : b ≠ a := Ne.symm hab
        simp only [strLeb, if_neg hab, decide_eq_true_eq] at h1
        simp only [strLeb, if_neg hba, decide_eq_true_eq] at h2
        omega

/-- Two key-sorted association lists that are permutations of each other
and have pairwise-distinct keys are equal. -/
theorem eq_of_perm_of_key_sorted {α : Type} :
    ∀ (l₁ l₂ : List (GoStr × α)), List.Perm l₁ l₂ →
    List.Pairwise (fun a b => strLeb a.1 b.1 = true) l₁ →
    List.Pairwise (fun a b => strLeb a.1 b.1 = true) l₂ →
    (l₁.map Prod.fst).Nodup → l₁ = l₂ := by
  intro l₁
  induction l₁ with
  | nil => intro l₂ hp _ _ _; exact (List.Perm.nil_eq hp)
  | cons a t₁ ih =>
    intro l₂ hp hs₁ hs₂ hnd
    cases l₂ with
    | nil => exact absurd (List.Perm.nil_eq hp.symm).symm (by simp)
    | cons b t₂ =>
      have hnd' : a.1 ∉ t₁.map Prod.fst ∧ (t₁.map Prod.fst).Nodup :=
        List.nodup_cons.mp (by rw [List.map_cons] at hnd; exact hnd)
      by_cases hab : a = b
      · subst hab
        have hp' := List.Perm.cons_inv hp
        rw [ih t₂ hp' (List.Pairwise.of_cons hs₁) (List.Pairwise.of_cons hs₂) hnd'.2]
      · exfalso
        have hbmem : b ∈ a :: t₁ := hp.symm.subset (List.mem_cons_self b t₂)
        have hamem : a ∈ b :: t₂ := hp.subset (List.mem_cons_self a t₁)
        have hbt₁ : b ∈ t₁ := by
          cases List.mem_cons.mp hbmem with
          | inl h => exact absurd h.symm hab
          | inr h => exact h
        have hat₂ : a ∈ t₂ := by
          cases List.mem_cons.mp hamem with
          | inl h => exact absurd h hab
          | inr h => exact h
        have h1 : strLeb a.1 b.1 = true := (List.pairwise_cons.mp hs₁).1 b hbt₁
        have h2 : strLeb b.1 a.1 = true := (List.pairwise_cons.mp hs₂).1 a hat₂
        have hkey : a.1 = b.1 := strLeb_antisymm _ _ h1 h2
        have hmem : a.1 ∈ t₁.map Prod.fst := by
          rw [hkey]
          exact List.mem_map.mpr ⟨b, hbt₁, rfl⟩
        exact hnd'.1 hmem

/-- Sorting two key-distinct permutations of the same fields by key
yields the same list. -/
theorem insertionSort_key_perm_eq (l₁ l₂ : List (GoStr × GoStr))
    (hp : List.Perm l₁ l₂) (hnd : (l₁.map Prod.fst).Nodup) :
    List.insertionSort (fun a b => strLeb a.1 b.1 = true) l₁ =
      List.insertionSort (fun a b => strLeb a.1 b.1 = true) l₂ := by
  haveI : IsTotal (GoStr × GoStr) (fun a b => strLeb a.1 b.1 = true) :=
    ⟨fun a b => strLeb_total a.1 b.1⟩
  haveI : IsTrans (GoStr × GoStr) (fun a b => strLeb a.1 b.1 = true) :=
    ⟨fun a b c => strLeb_trans a.1 b.1 c.1⟩
  have hperm : List.Perm (List.insertionSort (fun a b => strLeb a.1 b.1 = true) l₁)
      (List.insertionSort (fun a b => strLeb a.1 b.1 = true) l₂) :=
    ((List.perm_insertionSort _ l₁).trans hp).trans
      (List.perm_insertionSort _ l₂).symm
  have hnd₁ : ((List.insertionSort (fun a b => strLeb a.1 b.1 = true) l₁).map
      Prod.fst).Nodup :=
    (List.Perm.map Prod.fst (List.perm_insertionSort _ l₁)).symm.nodup hnd
  exact eq_of_perm_of_key_sorted _ _ hperm
    (List.sorted_insertionSort _ l₁) (List.sorted_insertionSort _ l₂) hnd₁

/-- C6: JSON formatting.  Object keys are rendered in sorted order at
every nesting level: the rendering of an object node (at any fuel and any
indentation, hence at any nesting depth) is invariant under permuting its
fields when keys are distinct, as the decoded maps guarantee.  On the
concrete documents: keys render sorted (`age` before `name` although the
input lists `name` first), strings are quoted (`%6q`), numbers render as
two-decimal floats (`%6.2f`; `json.Unmarshal` only ever produces
`float64`, the `int` arm is unreachable), arrays are bracketed with one
element per line and two extra spaces per level, and leading newlines are
trimmed; syntactically invalid input fails with a parse error. -/
theorem C6_json_sorted_keys_quoting_and_errors :
    (∀ (fuel : Nat) (ind : GoStr) (kvs kvs' : List (GoStr × GoJSON)),
      List.Perm kvs kvs' → (kvs.map Prod.fst).Nodup →
      jsonFmat fuel (.obj kvs) ind = jsonFmat fuel (.obj kvs') ind) ∧
    jsonFormatterFn newValueFormatting
        (asciiBytes "\x7b\"name\": \"Brave\", \"age\": 2, \"isFluffy\": true, \"hobbies\": \x7b \"toys\": [ \"mousies\"]\x7d\x7d") =
      .ok (gs "age:     2.00\nhobbies: \n  toys: \n    [\n      \"mousies\"\n    ]\n\nisFluffy: true\nname:   \"Brave\"\n") ∧
    jsonFormatterFn newValueFormatting (asciiBytes "\x7b\"name\": \"Brave\", \"age\": 2\x7d") =
      .ok (gs "age:     2.00\nname:   \"Brave\"\n") ∧
    (∃ e, jsonFormatterFn newValueFormatting (asciiBytes "\x7b\"name\": ") = .error e) := by
  refine ⟨?_, by decide, by decide, ⟨gs "invalid JSON input", by decide⟩⟩
  intro fuel ind kvs kvs' hp hnd
  cases fuel with
  | zero => rfl
  | succ fuel =>
    simp only [jsonFmat]
    have hrp : List.Perm
        (kvs.map (fun p => (p.1, jsonFmat fuel p.2 (gs "  " ++ ind))))
        (kvs'.map (fun p => (p.1, jsonFmat fuel p.2 (gs "  " ++ ind)))) :=
      List.Perm.map _ hp
    have hkeys : (kvs.map (fun p => (p.1, jsonFmat fuel p.2 (gs "  " ++ ind)))).map
        Prod.fst = kvs.map Prod.fst := by
      rw [List.map_map]
      rfl
    rw [insertionSort_key_perm_eq _ _ hrp (by rw [hkeys]; exact hnd)]

/-- C6 witness: the object rendering at fuel 3 is invariant under swapping
two distinct-keyed fields. -/
theorem C6_witness :
    jsonFmat 3 (.obj [(gs "b", .null), (gs "a", .null)]) [] =
      jsonFmat 3 (.obj [(gs "a", .null), (gs "b", .null)]) [] :=
  C6_json_sorted_keys_quoting_and_errors.1 3 []
    [(gs "b", .null), (gs "a", .null)] [(gs "a", .null), (gs "b", .null)]
    (List.Perm.swap _ _ _) (by decide)

end Cbt
